import Mathlib

/-!
Shallow embedding of the polytracker position-monitoring core.

Source files embedded:
  - src/monitor.mjs : diffPositions (reconciliation engine), the snapshot
    normalizers in pollOnce and in the baseline loop of main, and the
    per-trader polling step.
  - src/api.mjs : fetchAllEvents pagination loop, shortenAddress.
  - src/discord.mjs : buildTradeEmbed color/grouping logic.

Numbers that JavaScript stores as IEEE doubles are modelled as exact
rationals; missing/undefined record fields are modelled with Option, and
the JavaScript truthiness idioms (x || 0, x || null, s || t, a ?? b) are
modelled by explicit helper functions.
-/

namespace PolyTracker

/-- JavaScript `x || 0` on an optional numeric field: an absent value and a
zero value both give 0. -/
def jsOr0 (x : Option ℚ) : ℚ := x.getD 0

/-- Math.abs on a (non-NaN) number. -/
def jsAbs (q : ℚ) : ℚ := if q < 0 then -q else q

/-- Math.max on two (non-NaN) numbers. -/
def jsMax (a b : ℚ) : ℚ := if a < b then b else a

/-- JavaScript `x || null` on an optional numeric field: absent and zero
both become null (`none`); any other value is kept. -/
def jsOrNull (x : Option ℚ) : Option ℚ :=
  match x with
  | none => none
  | some v => if v = 0 then none else some v

/-- JavaScript `s || d` on an optional string: absent and empty both fall
through to the default `d`. -/
def jsOrStr (s : Option String) (d : String) : String :=
  match s with
  | none => d
  | some v => if v = "" then d else v

/-- A position record as it appears in the monitor: raw records from the
positions API and normalized records share this shape, with `Option`
marking fields that may be missing. -/
structure Position where
  conditionId : String
  outcomeIndex : Option Int := none
  outcome : Option String := none
  size : Option ℚ := none
  cashPnl : Option ℚ := none
  curPrice : Option ℚ := none
  avgPrice : Option ℚ := none
  title : Option String := none
  slug : Option String := none
  eventSlug : Option String := none
deriving DecidableEq

/-- Join key of a position, monitor.mjs lines 37 and 41:
the template string conditionId-(outcomeIndex ?? outcome ?? 0), where `??`
keeps a present-but-falsy value (index 0, empty outcome string). -/
def posKey (p : Position) : String :=
  p.conditionId ++ "-" ++
    (match p.outcomeIndex with
     | some i => toString i
     | none =>
       match p.outcome with
       | some s => s
       | none => "0")

/-- JavaScript object / Map lookup on an insertion-ordered association
list: the first entry with the key wins (keys are unique by construction
of jsSet, so this is the entry). -/
def jsLookup {β : Type} : List (String × β) → String → Option β
  | [], _ => none
  | e :: rest, k => if e.1 = k then some e.2 else jsLookup rest k

/-- JavaScript Map.set / object-key assignment semantics: an existing key
keeps its insertion position and gets the new value, a fresh key is
appended at the end. -/
def jsSet {β : Type} (m : List (String × β)) (k : String) (v : β) :
    List (String × β) :=
  if m.any (fun e => decide (e.1 = k)) then
    m.map (fun e => if e.1 = k then (k, v) else e)
  else
    m ++ [(k, v)]

/-- The key-to-position map built by the two loops at monitor.mjs lines
36-43: fold the snapshot into an insertion-ordered map keyed by posKey. -/
def buildMap (positions : List Position) : List (String × Position) :=
  positions.foldl (fun m p => jsSet m (posKey p) p) []

/-- Classification of a change, monitor.mjs (the `type` field of the
pushed change records). -/
inductive ChangeType
  | new
  | closed
  | changed
deriving DecidableEq

/-- A change record as pushed by diffPositions. `prevSize` is `none`
exactly when the source code omits the field (the `new` branch). -/
structure Change where
  type : ChangeType
  conditionId : String
  title : String
  outcome : String
  size : ℚ
  prevSize : Option ℚ
  sizeDelta : ℚ
  cashPnl : Option ℚ
  curPrice : ℚ
  avgPrice : ℚ
  eventSlug : String
deriving DecidableEq

/-- Display title of a change, monitor.mjs: pos.title || pos.slug ||
pos.conditionId. -/
def titleDisplay (pos : Position) : String :=
  jsOrStr pos.title (jsOrStr pos.slug pos.conditionId)

/-- Display outcome of a change, monitor.mjs: pos.outcome || the string
"Index " followed by (pos.outcomeIndex ?? the placeholder). -/
def outcomeDisplay (pos : Position) : String :=
  jsOrStr pos.outcome
    ("Index " ++ (match pos.outcomeIndex with
                  | some i => toString i
                  | none => "?"))

/-- The change record pushed at monitor.mjs lines 48-59 for a key present
only in the new snapshot. -/
def mkNewChange (pos : Position) : Change where
  type := ChangeType.new
  conditionId := pos.conditionId
  title := titleDisplay pos
  outcome := outcomeDisplay pos
  size := jsOr0 pos.size
  prevSize := none
  sizeDelta := jsOr0 pos.size
  cashPnl := jsOrNull pos.cashPnl
  curPrice := jsOr0 pos.curPrice
  avgPrice := jsOr0 pos.avgPrice
  eventSlug := jsOrStr pos.eventSlug ""

/-- The change record pushed at monitor.mjs lines 66-78 for a key present
only in the old snapshot. -/
def mkClosedChange (pos : Position) : Change where
  type := ChangeType.closed
  conditionId := pos.conditionId
  title := titleDisplay pos
  outcome := outcomeDisplay pos
  size := 0
  prevSize := some (jsOr0 pos.size)
  sizeDelta := -(jsOr0 pos.size)
  cashPnl := jsOrNull pos.cashPnl
  curPrice := jsOr0 pos.curPrice
  avgPrice := jsOr0 pos.avgPrice
  eventSlug := jsOrStr pos.eventSlug ""

/-- The change record pushed at monitor.mjs lines 91-103 for a key present
in both snapshots whose size moved past both thresholds. -/
def mkChangedChange (oldPos newPos : Position) : Change where
  type := ChangeType.changed
  conditionId := newPos.conditionId
  title := titleDisplay newPos
  outcome := outcomeDisplay newPos
  size := jsOr0 newPos.size
  prevSize := some (jsOr0 oldPos.size)
  sizeDelta := jsOr0 newPos.size - jsOr0 oldPos.size
  cashPnl := jsOrNull newPos.cashPnl
  curPrice := jsOr0 newPos.curPrice
  avgPrice := jsOr0 newPos.avgPrice
  eventSlug := jsOrStr newPos.eventSlug ""

/-- The noise-suppression condition at monitor.mjs line 90:
delta > 1 and delta / Math.max(oldSize, 1) > 0.01, with delta the absolute
size difference. -/
def adjustThreshold (oldPos newPos : Position) : Prop :=
  1 < jsAbs (jsOr0 newPos.size - jsOr0 oldPos.size) ∧
    1 / 100 <
      jsAbs (jsOr0 newPos.size - jsOr0 oldPos.size) / jsMax (jsOr0 oldPos.size) 1

instance (oldPos newPos : Position) : Decidable (adjustThreshold oldPos newPos) := by
  unfold adjustThreshold
  infer_instance

/-- diffPositions, monitor.mjs lines 31-109: build both key maps, then
push `new` changes (new-map iteration order), then `closed` changes
(old-map iteration order), then `changed` changes filtered by the
thresholds (new-map iteration order), into one accumulating array. -/
def diffPositions (oldPositions newPositions : List Position) : List Change :=
  let oldMap := buildMap oldPositions
  let newMap := buildMap newPositions
  let newChanges := newMap.foldl
    (fun acc e =>
      if (jsLookup oldMap e.1).isSome then acc else acc ++ [mkNewChange e.2])
    []
  let withClosed := oldMap.foldl
    (fun acc e =>
      if (jsLookup newMap e.1).isSome then acc else acc ++ [mkClosedChange e.2])
    newChanges
  newMap.foldl
    (fun acc e =>
      match jsLookup oldMap e.1 with
      | none => acc
      | some oldPos =>
        if adjustThreshold oldPos e.2 then acc ++ [mkChangedChange oldPos e.2]
        else acc)
    withClosed

/-- The pollOnce snapshot normalizer, monitor.mjs lines 125-136: every
numeric field (size, cashPnl, curPrice, avgPrice) defaults to 0, title
falls back to slug then to the empty string, slug and eventSlug default to
the empty string, while conditionId, outcomeIndex and outcome are passed
through unchanged. -/
def normalizePosition (p : Position) : Position where
  conditionId := p.conditionId
  outcomeIndex := p.outcomeIndex
  outcome := p.outcome
  size := some (jsOr0 p.size)
  cashPnl := some (jsOr0 p.cashPnl)
  curPrice := some (jsOr0 p.curPrice)
  avgPrice := some (jsOr0 p.avgPrice)
  title := some (jsOrStr p.title (jsOrStr p.slug ""))
  slug := some (jsOrStr p.slug "")
  eventSlug := some (jsOrStr p.eventSlug "")

/-- The baseline-loop snapshot normalizer, monitor.mjs lines 212-217
(field-by-field the same mapping written a second time in main). -/
def baselineNormalizePosition (p : Position) : Position where
  conditionId := p.conditionId
  outcomeIndex := p.outcomeIndex
  outcome := p.outcome
  size := some (jsOr0 p.size)
  cashPnl := some (jsOr0 p.cashPnl)
  curPrice := some (jsOr0 p.curPrice)
  avgPrice := some (jsOr0 p.avgPrice)
  title := some (jsOrStr p.title (jsOrStr p.slug ""))
  slug := some (jsOrStr p.slug "")
  eventSlug := some (jsOrStr p.eventSlug "")

/-- shortenAddress, api.mjs lines 77-81. -/
def shortenAddress (address : String) : String :=
  if address = "" then "Unknown"
  else if address.length ≤ 10 then address
  else address.take 6 ++ "..." ++ address.drop (address.length - 4)

/-- hasBuy, discord.mjs line 64: some change has positive sizeDelta or is
of type new. -/
def hasBuy (changes : List Change) : Bool :=
  changes.any fun c => decide (0 < c.sizeDelta) || decide (c.type = ChangeType.new)

/-- hasSell, discord.mjs line 65: some change has negative sizeDelta or is
of type closed. -/
def hasSell (changes : List Change) : Bool :=
  changes.any fun c => decide (c.sizeDelta < 0) || decide (c.type = ChangeType.closed)

/-- The decision-relevant shape of the embed built by buildTradeEmbed:
its color, its field count after the 25-entry truncation, and the trader
identification. The textual field values are IEEE-float display
formatting (toFixed) and are not part of the model. -/
structure Embed where
  traderName : String
  traderUrl : String
  color : Nat
  numFields : Nat
deriving DecidableEq

/-- buildTradeEmbed, discord.mjs lines 34-77: the color is green 0x00ff00
when hasBuy and not hasSell, red 0xff0000 when hasSell and not hasBuy,
amber 0xffaa00 otherwise; the fields array is truncated to 25 entries. -/
def buildTradeEmbed (traderName traderWallet : String) (changes : List Change) :
    Embed where
  traderName := traderName
  traderUrl := "https://polymarket.com/profile/" ++ traderWallet
  color :=
    if hasBuy changes && !hasSell changes then 0x00ff00
    else if hasSell changes && !hasBuy changes then 0xff0000
    else 0xffaa00
  numFields := min changes.length 25

/-- Outcome of one fetchPositions call as pollOnce sees it: the fetch
threw, the response was not an array, or a list of raw records. -/
inductive FetchResult
  | err
  | nonList
  | ok (positions : List Position)
deriving DecidableEq

/-- Whether the fetch produced a usable list. -/
def FetchResult.isOk : FetchResult → Bool
  | .ok _ => true
  | _ => false

/-- A configured trader, config.json shape consumed by monitor.mjs. -/
structure Trader where
  name : Option String := none
  wallet : String
deriving DecidableEq

/-- displayName, monitor.mjs line 116: trader.name ||
shortenAddress(trader.wallet). -/
def displayName (t : Trader) : String :=
  jsOrStr t.name (shortenAddress t.wallet)

/-- The persisted trader-to-positions mapping, modelled with JavaScript
object key semantics (insertion order, assignment via jsSet). -/
abbrev StateStore := List (String × List Position)

/-- The allow-list filter at monitor.mjs line 124:
!conditionIds || conditionIds.has(p.conditionId). -/
def pollFilter (cids : Option (List String)) (positions : List Position) :
    List Position :=
  positions.filter fun p =>
    match cids with
    | none => true
    | some ids => ids.contains p.conditionId

/-- One trader's processing inside pollOnce, monitor.mjs lines 115-161:
a thrown fetch or non-array response leaves state and notifications
untouched; otherwise filter, normalize, diff against the stored snapshot
(defaulting to the empty list), dispatch one embed when changes exist, and
overwrite the trader's state entry with the normalized snapshot. -/
def pollTraderStep (cids : Option (List String)) (fetch : String → FetchResult)
    (acc : StateStore × List Embed) (t : Trader) : StateStore × List Embed :=
  match fetch t.wallet with
  | .err => acc
  | .nonList => acc
  | .ok positions =>
    let normalized := (pollFilter cids positions).map normalizePosition
    let prevPositions := (jsLookup acc.1 t.wallet).getD []
    let changes := diffPositions prevPositions normalized
    let embeds :=
      if changes.isEmpty then acc.2
      else acc.2 ++ [buildTradeEmbed (displayName t) t.wallet changes]
    (jsSet acc.1 t.wallet normalized, embeds)

/-- One steady-state poll cycle over the configured traders, monitor.mjs
pollOnce: fold the per-trader step over the trader list, collecting the
dispatched embeds. -/
def pollOnce (cids : Option (List String)) (fetch : String → FetchResult)
    (traders : List Trader) (st : StateStore) : StateStore × List Embed :=
  traders.foldl (pollTraderStep cids fetch) (st, [])

/-- One trader's processing inside the baseline loop, monitor.mjs lines
206-220: failures are swallowed, a non-array response is skipped, and a
successful fetch stores the filtered normalized snapshot; no diff is
computed and nothing is dispatched. -/
def baselineStep (cids : List String) (fetch : String → FetchResult)
    (acc : StateStore × List Embed) (t : Trader) : StateStore × List Embed :=
  match fetch t.wallet with
  | .err => acc
  | .nonList => acc
  | .ok positions =>
    (jsSet acc.1 t.wallet
      ((positions.filter fun p => cids.contains p.conditionId).map
        baselineNormalizePosition),
     acc.2)

/-- The baseline phase of main, monitor.mjs lines 204-223, run once when
the loaded state is empty. -/
def baselineRun (cids : List String) (fetch : String → FetchResult)
    (traders : List Trader) (st : StateStore) : StateStore × List Embed :=
  traders.foldl (baselineStep cids fetch) (st, [])

/-- The pagination loop of fetchAllEvents, api.mjs lines 19-25, applied to
the sequence of page responses (none models a non-array response): stop on
a non-array or empty page, otherwise append the page and stop as soon as
the accumulated length exceeds 5000. -/
def fetchAllEventsLoop {α : Type} : List (Option (List α)) → List α → List α
  | [], allEvents => allEvents
  | page :: rest, allEvents =>
    match page with
    | none => allEvents
    | some events =>
      if events.length = 0 then allEvents
      else
        let next := allEvents ++ events
        if next.length > 5000 then next
        else fetchAllEventsLoop rest next

/-- fetchAllEvents, api.mjs lines 14-28, starting from the empty
accumulator. -/
def fetchAllEvents {α : Type} (pages : List (Option (List α))) : List α :=
  fetchAllEventsLoop pages []

/-- Per-entry decision of the first diffPositions loop (monitor.mjs lines
46-61): a new-map entry whose key is absent from the old map yields a
`new` change. -/
def newFilter (oldMap : List (String × Position)) (e : String × Position) :
    Option Change :=
  if (jsLookup oldMap e.1).isSome then none else some (mkNewChange e.2)

/-- Per-entry decision of the second diffPositions loop (monitor.mjs lines
64-80): an old-map entry whose key is absent from the new map yields a
`closed` change. -/
def closedFilter (newMap : List (String × Position)) (e : String × Position) :
    Option Change :=
  if (jsLookup newMap e.1).isSome then none else some (mkClosedChange e.2)

/-- Per-entry decision of the third diffPositions loop (monitor.mjs lines
83-106): a new-map entry whose key is in the old map yields a `changed`
change exactly when the two thresholds are exceeded. -/
def adjFilter (oldMap : List (String × Position)) (e : String × Position) :
    Option Change :=
  match jsLookup oldMap e.1 with
  | none => none
  | some oldPos =>
    if adjustThreshold oldPos e.2 then some (mkChangedChange oldPos e.2)
    else none

/-- Well-formedness of a change record, the invariant that diffPositions
outputs satisfy: non-negative sizes and the sizeDelta bookkeeping of each
change kind. -/
def wellFormedChange (c : Change) : Prop :=
  0 ≤ c.size ∧ 0 ≤ c.prevSize.getD 0 ∧
    c.sizeDelta = c.size - c.prevSize.getD 0 ∧
    (c.type = ChangeType.new → c.prevSize = none) ∧
    (c.type = ChangeType.closed → c.size = 0)

/-! ## Sample data used by witnesses and counterexamples -/

/-- Sample position: 50 shares of outcome 0 of market c1. -/
def pos50 : Position := { conditionId := "c1", outcomeIndex := some 0, size := some 50 }

/-- Sample position: 48 shares of outcome 0 of market c1. -/
def pos48 : Position := { conditionId := "c1", outcomeIndex := some 0, size := some 48 }

/-- Sample position with a zero cashPnl value. -/
def posB : Position :=
  { conditionId := "c2", outcomeIndex := some 1, size := some 7, cashPnl := some 0 }

/-- Sample position with a nonzero cashPnl value. -/
def posC : Position :=
  { conditionId := "c3", outcomeIndex := some 0, size := some 3, cashPnl := some 5 }

/-- Sample raw record with no cashPnl field. -/
def rawNoPnl : Position := { conditionId := "c6" }

/-- Sample raw record identical to rawNoPnl except for a zero cashPnl. -/
def rawZeroPnl : Position := { conditionId := "c6", cashPnl := some 0 }

/-- Sample change: a newly opened 5-share position. -/
def cNew5 : Change :=
  { type := ChangeType.new, conditionId := "c4", title := "t", outcome := "o",
    size := 5, prevSize := none, sizeDelta := 5, cashPnl := none,
    curPrice := 0, avgPrice := 0, eventSlug := "" }

/-- Sample change: an adjusted position whose size did not move. -/
def cChg0 : Change :=
  { type := ChangeType.changed, conditionId := "c5", title := "t", outcome := "o",
    size := 3, prevSize := some 3, sizeDelta := 0, cashPnl := none,
    curPrice := 0, avgPrice := 0, eventSlug := "" }

/-- Sample trader. -/
def traderEx : Trader := { name := some "alice", wallet := "w1" }

/-- Second sample trader with a distinct wallet. -/
def traderEx2 : Trader := { name := some "bob", wallet := "w2" }

/-- Sample fetch environment where wallet w1 fails and others succeed. -/
def fetchFailEx : String → FetchResult :=
  fun w => if w = "w1" then FetchResult.err else FetchResult.ok [posC]

/-- Sample fetch environment where wallet w1 succeeds and others fail. -/
def fetchOkEx : String → FetchResult :=
  fun w => if w = "w1" then FetchResult.ok [posC] else FetchResult.err

/-! ## Infrastructure lemmas -/

theorem foldl_push_filterMap {α β : Type} (step : List β → α → List β)
    (g : α → Option β)
    (hstep : ∀ acc x, step acc x =
      match g x with
      | some y => acc ++ [y]
      | none => acc) :
    ∀ (l : List α) (init : List β), l.foldl step init = init ++ l.filterMap g
  | [], init => by simp
  | x :: xs, init => by
    rw [List.foldl_cons, foldl_push_filterMap step g hstep xs (step init x),
      hstep init x, List.filterMap_cons]
    cases g x <;> simp

theorem jsLookup_of_forall_ne {β : Type} {m : List (String × β)} {k : String}
    (h : ∀ e ∈ m, e.1 ≠ k) : jsLookup m k = none := by
  induction m with
  | nil => rfl
  | cons e es ih =>
    rw [jsLookup, if_neg (h e (List.mem_cons_self e es))]
    exact ih fun e' he' => h e' (List.mem_cons_of_mem e he')

theorem jsLookup_append {β : Type} (m m' : List (String × β)) (k : String) :
    jsLookup (m ++ m') k =
      match jsLookup m k with
      | some v => some v
      | none => jsLookup m' k := by
  induction m with
  | nil => rfl
  | cons e es ih =>
    by_cases h : e.1 = k
    · simp [jsLookup, h]
    · simp only [List.cons_append, jsLookup, if_neg h, List.append_eq, ih]

theorem mem_of_jsLookup {β : Type} {m : List (String × β)} {k : String} {v : β}
    (h : jsLookup m k = some v) : (k, v) ∈ m := by
  induction m with
  | nil => exact absurd h (by simp [jsLookup])
  | cons e es ih =>
    rw [jsLookup] at h
    by_cases he : e.1 = k
    · rw [if_pos he] at h
      obtain rfl : e.2 = v := Option.some.inj h
      exact he ▸ List.mem_cons_self e es
    · exact List.mem_cons_of_mem e (ih (by rwa [if_neg he] at h))

theorem jsLookup_isSome_of_mem {β : Type} {m : List (String × β)} {k : String}
    {v : β} (h : (k, v) ∈ m) : (jsLookup m k).isSome = true := by
  induction m with
  | nil => exact absurd h (List.not_mem_nil _)
  | cons e es ih =>
    rw [jsLookup]
    by_cases he : e.1 = k
    · rw [if_pos he]; rfl
    · rw [if_neg he]
      rcases List.mem_cons.mp h with h' | h'
      · exact absurd (congrArg Prod.fst h'.symm) he
      · exact ih h'

theorem jsLookup_map_update_ne {β : Type} {k w : String} (v : β)
    (m : List (String × β)) (hw : w ≠ k) :
    jsLookup (m.map fun e => if e.1 = k then (k, v) else e) w = jsLookup m w := by
  induction m with
  | nil => rfl
  | cons e es ih =>
    by_cases he : e.1 = k
    · have h1 : ¬ (k = w) := fun h => hw h.symm
      simp only [List.map_cons, if_pos he, jsLookup, if_neg h1, ih,
        if_neg (he ▸ h1 : ¬ e.1 = w)]
    · simp only [List.map_cons, if_neg he, jsLookup, ih]

theorem jsSet_of_forall_ne {β : Type} {m : List (String × β)} {k : String}
    (v : β) (h : ∀ e ∈ m, e.1 ≠ k) : jsSet m k v = m ++ [(k, v)] := by
  rw [jsSet, if_neg]
  simp only [List.any_eq_true, decide_eq_true_eq, not_exists, not_and]
  exact h

theorem jsLookup_map_update_self {β : Type} {k : String} (v : β) :
    ∀ {m : List (String × β)}, (∃ e ∈ m, e.1 = k) →
      jsLookup (m.map fun e => if e.1 = k then (k, v) else e) k = some v := by
  intro m
  induction m with
  | nil => rintro ⟨e, he, -⟩; exact absurd he (List.not_mem_nil _)
  | cons e' es ih =>
    rintro ⟨e, he, hek⟩
    by_cases he' : e'.1 = k
    · simp [jsLookup, he']
    · simp only [List.map_cons, if_neg he', jsLookup, if_neg he']
      refine ih ⟨e, ?_, hek⟩
      rcases List.mem_cons.mp he with h' | h'
      · exact absurd (h' ▸ hek) he'
      · exact h'

theorem jsLookup_jsSet_self {β : Type} (m : List (String × β)) (k : String)
    (v : β) : jsLookup (jsSet m k v) k = some v := by
  rw [jsSet]
  by_cases h : m.any fun e => decide (e.1 = k)
  · rw [if_pos h]
    rw [List.any_eq_true] at h
    obtain ⟨e, he, hek⟩ := h
    exact jsLookup_map_update_self v ⟨e, he, of_decide_eq_true hek⟩
  · rw [if_neg h]
    have hall : ∀ e ∈ m, e.1 ≠ k := fun e he hek =>
      h (List.any_eq_true.mpr ⟨e, he, by simp [hek]⟩)
    rw [jsLookup_append, jsLookup_of_forall_ne hall]
    simp [jsLookup]

theorem jsLookup_jsSet_ne {β : Type} (m : List (String × β)) (k w : String)
    (v : β) (hw : w ≠ k) : jsLookup (jsSet m k v) w = jsLookup m w := by
  rw [jsSet]
  by_cases h : m.any fun e => decide (e.1 = k)
  · rw [if_pos h, jsLookup_map_update_ne v m hw]
  · rw [if_neg h, jsLookup_append]
    cases hm : jsLookup m w with
    | some v' => rfl
    | none =>
      show jsLookup [(k, v)] w = none
      rw [jsLookup, if_neg (fun hkw : k = w => hw hkw.symm)]
      rfl

theorem mem_jsSet {β : Type} {m : List (String × β)} {k : String} {v : β}
    {e : String × β} (h : e ∈ jsSet m k v) : e ∈ m ∨ e = (k, v) := by
  rw [jsSet] at h
  by_cases hany : m.any fun e => decide (e.1 = k)
  · rw [if_pos hany] at h
    obtain ⟨e', he', heq⟩ := List.mem_map.mp h
    by_cases he'k : e'.1 = k
    · right; rw [← heq, if_pos he'k]
    · left; rw [← heq, if_neg he'k]; exact he'
  · rw [if_neg hany] at h
    rcases List.mem_append.mp h with h' | h'
    · exact Or.inl h'
    · exact Or.inr (List.mem_singleton.mp h')

theorem jsSet_keys_nodup {β : Type} {m : List (String × β)} {k : String}
    (v : β) (h : (m.map Prod.fst).Nodup) :
    ((jsSet m k v).map Prod.fst).Nodup := by
  rw [jsSet]
  by_cases hany : m.any fun e => decide (e.1 = k)
  · rw [if_pos hany]
    have hkeys : ((m.map fun e => if e.1 = k then (k, v) else e).map Prod.fst) =
        m.map Prod.fst := by
      rw [List.map_map]
      refine List.map_congr_left fun e _ => ?_
      by_cases he : e.1 = k
      · simp [he]
      · simp [he]
    rwa [hkeys]
  · rw [if_neg hany, List.map_append]
    have hk : k ∉ m.map Prod.fst := by
      intro hk
      obtain ⟨e, he, hek⟩ := List.mem_map.mp hk
      exact hany (List.any_eq_true.mpr ⟨e, he, by simp [hek]⟩)
    simp only [List.map_cons, List.map_nil]
    exact List.Nodup.append h (List.nodup_singleton k)
      (List.disjoint_singleton.mpr hk)

theorem mem_buildMap_aux {e : String × Position} :
    ∀ (l : List Position) (m : List (String × Position)),
      e ∈ List.foldl (fun m p => jsSet m (posKey p) p) m l →
      e ∈ m ∨ (e.2 ∈ l ∧ e.1 = posKey e.2)
  | [], m, h => Or.inl h
  | p :: ps, m, h => by
    rcases mem_buildMap_aux ps (jsSet m (posKey p) p) h with h' | h'
    · rcases mem_jsSet h' with h'' | h''
      · exact Or.inl h''
      · refine Or.inr ⟨?_, ?_⟩
        · rw [h'']; exact List.mem_cons_self p ps
        · rw [h'']
      -- e = (posKey p, p): key matches value
    · exact Or.inr ⟨List.mem_cons_of_mem p h'.1, h'.2⟩

theorem mem_buildMap {e : String × Position} {l : List Position}
    (h : e ∈ buildMap l) : e.2 ∈ l ∧ e.1 = posKey e.2 := by
  rcases mem_buildMap_aux l [] h with h' | h'
  · exact absurd h' (List.not_mem_nil e)
  · exact h'

theorem buildMap_keys_nodup :
    ∀ (l : List Position) (m : List (String × Position)),
      (m.map Prod.fst).Nodup →
      ((List.foldl (fun m p => jsSet m (posKey p) p) m l).map Prod.fst).Nodup
  | [], _, h => h
  | p :: ps, m, h =>
    buildMap_keys_nodup ps (jsSet m (posKey p) p) (jsSet_keys_nodup p h)

theorem jsLookup_eq_of_mem_nodup {β : Type} {m : List (String × β)}
    {k : String} {v : β} (hnd : (m.map Prod.fst).Nodup) (h : (k, v) ∈ m) :
    jsLookup m k = some v := by
  induction m with
  | nil => exact absurd h (List.not_mem_nil _)
  | cons e es ih =>
    rcases List.mem_cons.mp h with h' | h'
    · rw [← h', jsLookup, if_pos rfl]
    · rw [jsLookup]
      have hek : e.1 ≠ k := by
        intro hek
        have hk : k ∈ es.map Prod.fst :=
          List.mem_map.mpr ⟨(k, v), h', rfl⟩
        rw [List.map_cons, List.nodup_cons] at hnd
        exact hnd.1 (hek ▸ hk)
      rw [if_neg hek]
      exact ih (List.nodup_cons.mp (by rwa [List.map_cons] at hnd)).2 h'

theorem buildMap_of_nodup_aux :
    ∀ (l : List Position) (m : List (String × Position)),
      ((m.map Prod.fst ++ l.map posKey)).Nodup →
      List.foldl (fun m p => jsSet m (posKey p) p) m l =
        m ++ l.map fun p => (posKey p, p)
  | [], m, _ => by simp
  | p :: ps, m, h => by
    have hfresh : ∀ e ∈ m, e.1 ≠ posKey p := by
      intro e he hek
      have h1 : e.1 ∈ m.map Prod.fst := List.mem_map.mpr ⟨e, he, rfl⟩
      have h2 : posKey p ∈ List.map posKey (p :: ps) :=
        List.mem_map.mpr ⟨p, List.mem_cons_self p ps, rfl⟩
      exact (List.disjoint_of_nodup_append h) (hek ▸ h1) h2
    rw [List.foldl_cons, jsSet_of_forall_ne p hfresh,
      buildMap_of_nodup_aux ps (m ++ [(posKey p, p)]) (by
        simpa [List.append_assoc] using h)]
    simp

theorem buildMap_of_nodup {l : List Position} (h : (l.map posKey).Nodup) :
    buildMap l = l.map fun p => (posKey p, p) := by
  rw [buildMap, buildMap_of_nodup_aux l [] (by simpa using h)]
  simp

theorem diffPositions_eq (old new : List Position) :
    diffPositions old new =
      (buildMap new).filterMap (newFilter (buildMap old))
      ++ (buildMap old).filterMap (closedFilter (buildMap new))
      ++ (buildMap new).filterMap (adjFilter (buildMap old)) := by
  rw [diffPositions]
  rw [foldl_push_filterMap
    (fun acc e =>
      if (jsLookup (buildMap old) e.1).isSome then acc
      else acc ++ [mkNewChange e.2])
    (newFilter (buildMap old)) (fun acc e => by
      rw [newFilter]
      by_cases h : (jsLookup (buildMap old) e.1).isSome
      · simp [h]
      · simp [h])]
  rw [foldl_push_filterMap
    (fun acc e =>
      if (jsLookup (buildMap new) e.1).isSome then acc
      else acc ++ [mkClosedChange e.2])
    (closedFilter (buildMap new)) (fun acc e => by
      rw [closedFilter]
      by_cases h : (jsLookup (buildMap new) e.1).isSome
      · simp [h]
      · simp [h])]
  rw [foldl_push_filterMap
    (fun acc e =>
      match jsLookup (buildMap old) e.1 with
      | none => acc
      | some oldPos =>
        if adjustThreshold oldPos e.2 then acc ++ [mkChangedChange oldPos e.2]
        else acc)
    (adjFilter (buildMap old)) (fun acc e => by
      rw [adjFilter]
      cases h : jsLookup (buildMap old) e.1 with
      | none => simp [h]
      | some oldPos =>
        by_cases ht : adjustThreshold oldPos e.2
        · simp [h, ht]
        · simp [h, ht])]
  simp [List.append_assoc]

theorem buildMap_nodup (l : List Position) :
    ((buildMap l).map Prod.fst).Nodup :=
  buildMap_keys_nodup l [] (by simp)

theorem mem_newGroup {M L : List (String × Position)} {c : Change} :
    c ∈ L.filterMap (newFilter M) ↔
      ∃ e ∈ L, jsLookup M e.1 = none ∧ c = mkNewChange e.2 := by
  rw [List.mem_filterMap]
  constructor
  · rintro ⟨e, he, hf⟩
    rw [newFilter] at hf
    by_cases h : (jsLookup M e.1).isSome
    · rw [if_pos h] at hf; exact absurd hf (by simp)
    · rw [if_neg h] at hf
      exact ⟨e, he, Option.not_isSome_iff_eq_none.mp h, (Option.some.inj hf).symm⟩
  · rintro ⟨e, he, hnone, rfl⟩
    exact ⟨e, he, by rw [newFilter, hnone]; rfl⟩

theorem mem_closedGroup {M L : List (String × Position)} {c : Change} :
    c ∈ L.filterMap (closedFilter M) ↔
      ∃ e ∈ L, jsLookup M e.1 = none ∧ c = mkClosedChange e.2 := by
  rw [List.mem_filterMap]
  constructor
  · rintro ⟨e, he, hf⟩
    rw [closedFilter] at hf
    by_cases h : (jsLookup M e.1).isSome
    · rw [if_pos h] at hf; exact absurd hf (by simp)
    · rw [if_neg h] at hf
      exact ⟨e, he, Option.not_isSome_iff_eq_none.mp h, (Option.some.inj hf).symm⟩
  · rintro ⟨e, he, hnone, rfl⟩
    exact ⟨e, he, by rw [closedFilter, hnone]; rfl⟩

theorem mem_adjGroup {M L : List (String × Position)} {c : Change} :
    c ∈ L.filterMap (adjFilter M) ↔
      ∃ e ∈ L, ∃ oldPos, jsLookup M e.1 = some oldPos ∧
        adjustThreshold oldPos e.2 ∧ c = mkChangedChange oldPos e.2 := by
  rw [List.mem_filterMap]
  constructor
  · rintro ⟨e, he, hf⟩
    cases h : jsLookup M e.1 with
    | none => simp only [adjFilter, h] at hf; exact absurd hf (by simp)
    | some oldPos =>
      simp only [adjFilter, h] at hf
      by_cases ht : adjustThreshold oldPos e.2
      · rw [if_pos ht] at hf
        exact ⟨e, he, oldPos, h, ht, (Option.some.inj hf).symm⟩
      · rw [if_neg ht] at hf; exact absurd hf (by simp)
  · rintro ⟨e, he, oldPos, h, ht, rfl⟩
    exact ⟨e, he, by simp only [adjFilter, h, if_pos ht]⟩

/-- Claim C2: reconciling a snapshot with itself yields no changes. -/
theorem diffPositions_self (P : List Position) : diffPositions P P = [] := by
  rw [diffPositions_eq]
  have hsome : ∀ e ∈ buildMap P, (jsLookup (buildMap P) e.1).isSome = true :=
    fun e he => jsLookup_isSome_of_mem (v := e.2) he
  have hnew : (buildMap P).filterMap (newFilter (buildMap P)) = [] := by
    rw [List.filterMap_eq_nil_iff]
    intro e he
    rw [newFilter, if_pos (hsome e he)]
  have hclosed : (buildMap P).filterMap (closedFilter (buildMap P)) = [] := by
    rw [List.filterMap_eq_nil_iff]
    intro e he
    rw [closedFilter, if_pos (hsome e he)]
  have hadj : (buildMap P).filterMap (adjFilter (buildMap P)) = [] := by
    rw [List.filterMap_eq_nil_iff]
    intro e he
    have hlook : jsLookup (buildMap P) e.1 = some e.2 :=
      jsLookup_eq_of_mem_nodup (buildMap_nodup P) he
    have hthr : ¬ adjustThreshold e.2 e.2 := by
      rw [adjustThreshold, sub_self]
      norm_num [jsAbs]
    simp only [adjFilter, hlook, if_neg hthr]
  rw [hnew, hclosed, hadj]
  rfl

/-- Claim C1: for a position key present in both snapshots, an adjusted
(type changed) change is emitted exactly when the absolute delta exceeds 1
share and the delta relative to max(previous size, 1) exceeds 1 percent;
in particular no adjusted change is emitted when the delta is at most 1,
and the emitted change's sizeDelta is the signed size difference. -/
theorem diffPositions_adjusted_iff (old new : List Position) (k : String)
    (pOld pNew : Position)
    (hOld : jsLookup (buildMap old) k = some pOld)
    (hNew : jsLookup (buildMap new) k = some pNew) :
    (mkChangedChange pOld pNew ∈ diffPositions old new ↔
      adjustThreshold pOld pNew)
    ∧ (jsAbs (jsOr0 pNew.size - jsOr0 pOld.size) ≤ 1 →
        mkChangedChange pOld pNew ∉ diffPositions old new)
    ∧ (mkChangedChange pOld pNew).sizeDelta = jsOr0 pNew.size - jsOr0 pOld.size := by
  have hiff : mkChangedChange pOld pNew ∈ diffPositions old new ↔
      adjustThreshold pOld pNew := by
    rw [diffPositions_eq]
    constructor
    · intro hmem
      rcases List.mem_append.mp hmem with hmem' | hC
      · rcases List.mem_append.mp hmem' with hA | hB
        · obtain ⟨e, -, -, habs⟩ := mem_newGroup.mp hA
          exact absurd (congrArg Change.type habs)
            (by simp [mkChangedChange, mkNewChange])
        · obtain ⟨e, -, -, habs⟩ := mem_closedGroup.mp hB
          exact absurd (congrArg Change.type habs)
            (by simp [mkChangedChange, mkClosedChange])
      · obtain ⟨e, -, oldPos, -, ht, heq⟩ := mem_adjGroup.mp hC
        have hprev : jsOr0 oldPos.size = jsOr0 pOld.size := by
          have h' := congrArg Change.prevSize heq
          simp only [mkChangedChange] at h'
          exact (Option.some.inj h').symm
        have hsize : jsOr0 e.2.size = jsOr0 pNew.size := by
          have h' := congrArg Change.size heq
          simp only [mkChangedChange] at h'
          exact h'.symm
        rw [adjustThreshold] at ht ⊢
        rw [hprev, hsize] at ht
        exact ht
    · intro ht
      refine List.mem_append.mpr (Or.inr (mem_adjGroup.mpr ?_))
      exact ⟨(k, pNew), mem_of_jsLookup hNew, pOld, hOld, ht, rfl⟩
  refine ⟨hiff, ?_, rfl⟩
  intro hle hmem
  have ht := hiff.mp hmem
  rw [adjustThreshold] at ht
  exact absurd ht.1 (not_lt.mpr hle)

/-- Witness for C1 at the spec's concrete instance: previous size 50,
current size 48 is past both thresholds, so an adjusted change with
sizeDelta -2 is emitted. -/
theorem diffPositions_adjusted_iff_witness :
    mkChangedChange pos50 pos48 ∈ diffPositions [pos50] [pos48]
    ∧ (mkChangedChange pos50 pos48).sizeDelta = -2 := by
  have h := diffPositions_adjusted_iff [pos50] [pos48] "c1-0" pos50 pos48
    (by decide) (by decide)
  refine ⟨h.1.mpr ?_, ?_⟩
  · rw [adjustThreshold]
    norm_num [pos50, pos48, jsOr0, jsAbs, jsMax]
  · rw [h.2.2]
    norm_num [pos50, pos48, jsOr0]

/-- Claim C3: every emitted change satisfies the sizeDelta bookkeeping
invariant: sizeDelta is size minus previous size (previous size read as 0
when the prevSize field is absent), opened changes carry no prevSize,
closed changes have size 0, and adjusted changes carry a prevSize with
sizeDelta the signed difference. -/
theorem diffPositions_sizeDelta_invariant (old new : List Position)
    (c : Change) (hc : c ∈ diffPositions old new) :
    c.sizeDelta = c.size - c.prevSize.getD 0
    ∧ (c.type = ChangeType.new → c.prevSize = none)
    ∧ (c.type = ChangeType.closed → c.size = 0)
    ∧ (c.type = ChangeType.changed →
        ∃ ps, c.prevSize = some ps ∧ c.sizeDelta = c.size - ps) := by
  rw [diffPositions_eq] at hc
  rcases List.mem_append.mp hc with hc' | hC
  · rcases List.mem_append.mp hc' with hA | hB
    · obtain ⟨e, -, -, rfl⟩ := mem_newGroup.mp hA
      refine ⟨by simp [mkNewChange], fun _ => rfl, fun h => ?_, fun h => ?_⟩
      · simp [mkNewChange] at h
      · simp [mkNewChange] at h
    · obtain ⟨e, -, -, rfl⟩ := mem_closedGroup.mp hB
      refine ⟨by simp [mkClosedChange], fun h => ?_, fun _ => rfl, fun h => ?_⟩
      · simp [mkClosedChange] at h
      · simp [mkClosedChange] at h
  · obtain ⟨e, -, oldPos, -, -, rfl⟩ := mem_adjGroup.mp hC
    refine ⟨by simp [mkChangedChange], fun h => ?_, fun h => ?_,
      fun _ => ⟨jsOr0 oldPos.size, rfl, by simp [mkChangedChange]⟩⟩
    · simp [mkChangedChange] at h
    · simp [mkChangedChange] at h

/-- Witness for C3 on a concrete opened change. -/
theorem diffPositions_sizeDelta_invariant_witness :
    (mkNewChange posC).sizeDelta =
      (mkNewChange posC).size - ((mkNewChange posC).prevSize.getD 0)
    ∧ ((mkNewChange posC).type = ChangeType.new →
        (mkNewChange posC).prevSize = none)
    ∧ ((mkNewChange posC).type = ChangeType.closed →
        (mkNewChange posC).size = 0)
    ∧ ((mkNewChange posC).type = ChangeType.changed →
        ∃ ps, (mkNewChange posC).prevSize = some ps ∧
          (mkNewChange posC).sizeDelta = (mkNewChange posC).size - ps) :=
  diffPositions_sizeDelta_invariant [] [posC] (mkNewChange posC) (by decide)

/-- Claim C10: every emitted change's cashPnl is the jsOrNull image of the
cashPnl of a source position, jsOrNull maps every falsy source value
(absent or zero) to null, and consequently no emitted change ever carries
a zero cashPnl: zero PnL and missing PnL are reported identically. -/
theorem diffPositions_cashPnl_falsy (old new : List Position) (c : Change)
    (hc : c ∈ diffPositions old new) :
    (∃ p, (p ∈ old ∨ p ∈ new) ∧ c.cashPnl = jsOrNull p.cashPnl)
    ∧ (∀ v, c.cashPnl = some v → v ≠ 0)
    ∧ (∀ x : Option ℚ, jsOr0 x = 0 → jsOrNull x = none) := by
  have hnull : ∀ x : Option ℚ, jsOr0 x = 0 → jsOrNull x = none := by
    intro x hx
    cases x with
    | none => rfl
    | some w =>
      rw [jsOr0, Option.getD_some] at hx
      rw [jsOrNull, if_pos hx]
  have hnever : ∀ (x : Option ℚ) (v : ℚ), jsOrNull x = some v → v ≠ 0 := by
    intro x v h
    cases x with
    | none => exact absurd h (by rw [jsOrNull]; simp)
    | some w =>
      rw [jsOrNull] at h
      by_cases hw : w = 0
      · rw [if_pos hw] at h; exact absurd h (by simp)
      · rw [if_neg hw] at h
        exact (Option.some.inj h) ▸ hw
  rw [diffPositions_eq] at hc
  rcases List.mem_append.mp hc with hc' | hC
  · rcases List.mem_append.mp hc' with hA | hB
    · obtain ⟨e, he, -, rfl⟩ := mem_newGroup.mp hA
      exact ⟨⟨e.2, Or.inr (mem_buildMap he).1, rfl⟩,
        fun v h => hnever e.2.cashPnl v h, hnull⟩
    · obtain ⟨e, he, -, rfl⟩ := mem_closedGroup.mp hB
      exact ⟨⟨e.2, Or.inl (mem_buildMap he).1, rfl⟩,
        fun v h => hnever e.2.cashPnl v h, hnull⟩
  · obtain ⟨e, he, oldPos, -, -, rfl⟩ := mem_adjGroup.mp hC
    exact ⟨⟨e.2, Or.inr (mem_buildMap he).1, rfl⟩,
      fun v h => hnever e.2.cashPnl v h, hnull⟩

/-- Witness for C10 on a concrete opened change with zero source PnL. -/
theorem diffPositions_cashPnl_falsy_witness :
    (∃ p, (p ∈ ([] : List Position) ∨ p ∈ [posB]) ∧
      (mkNewChange posB).cashPnl = jsOrNull p.cashPnl)
    ∧ (∀ v, (mkNewChange posB).cashPnl = some v → v ≠ 0)
    ∧ (∀ x : Option ℚ, jsOr0 x = 0 → jsOrNull x = none) :=
  diffPositions_cashPnl_falsy [] [posB] (mkNewChange posB) (by decide)

/-- Claim C8: on snapshots with unique position keys, the reconcile result
is exactly the opened group, then the closed group, then the adjusted
group, each group following the iteration order of its source snapshot. -/
theorem diffPositions_grouping (old new : List Position)
    (hOld : (old.map posKey).Nodup) (hNew : (new.map posKey).Nodup) :
    diffPositions old new =
      new.filterMap (fun p => newFilter (buildMap old) (posKey p, p))
      ++ old.filterMap (fun p => closedFilter (buildMap new) (posKey p, p))
      ++ new.filterMap (fun p => adjFilter (buildMap old) (posKey p, p)) := by
  rw [diffPositions_eq, buildMap_of_nodup hNew, buildMap_of_nodup hOld,
    List.filterMap_map, List.filterMap_map, List.filterMap_map]
  rfl

/-- Witness for C8 on concrete one-position snapshots with distinct keys. -/
theorem diffPositions_grouping_witness :
    diffPositions [pos50] [posB] =
      [posB].filterMap (fun p => newFilter (buildMap [pos50]) (posKey p, p))
      ++ [pos50].filterMap (fun p => closedFilter (buildMap [posB]) (posKey p, p))
      ++ [posB].filterMap (fun p => adjFilter (buildMap [pos50]) (posKey p, p)) :=
  diffPositions_grouping [pos50] [posB] (by decide) (by decide)

/-- Counterexample to C4: both normalizers default cashPnl to 0, so a raw
record with no PnL data normalizes identically to one with cashPnl 0, and
the two are not distinguishable after normalization. -/
theorem normalize_cashPnl_not_preserved :
    rawNoPnl.cashPnl = none ∧ rawZeroPnl.cashPnl = some 0
    ∧ rawNoPnl ≠ rawZeroPnl
    ∧ normalizePosition rawNoPnl = normalizePosition rawZeroPnl
    ∧ (normalizePosition rawNoPnl).cashPnl = some 0 := by
  refine ⟨rfl, rfl, by decide, rfl, rfl⟩

/-- Amended C4: both normalization sites default every numeric field,
cashPnl included, to 0, default the string fields to empty (title falling
back to slug), and pass conditionId, outcomeIndex and outcome through
unchanged; the two sites agree on every record. -/
theorem normalize_defaults (p : Position) :
    baselineNormalizePosition p = normalizePosition p
    ∧ (normalizePosition p).size = some (jsOr0 p.size)
    ∧ (normalizePosition p).cashPnl = some (jsOr0 p.cashPnl)
    ∧ (normalizePosition p).curPrice = some (jsOr0 p.curPrice)
    ∧ (normalizePosition p).avgPrice = some (jsOr0 p.avgPrice)
    ∧ (normalizePosition p).title = some (jsOrStr p.title (jsOrStr p.slug ""))
    ∧ (normalizePosition p).slug = some (jsOrStr p.slug "")
    ∧ (normalizePosition p).eventSlug = some (jsOrStr p.eventSlug "")
    ∧ (normalizePosition p).conditionId = p.conditionId
    ∧ (normalizePosition p).outcomeIndex = p.outcomeIndex
    ∧ (normalizePosition p).outcome = p.outcome :=
  ⟨rfl, rfl, rfl, rfl, rfl, rfl, rfl, rfl, rfl, rfl, rfl⟩

set_option maxRecDepth 100000 in
/-- Counterexample to C5: 51 successive full pages of 100 records each
make the pagination loop return 5100 records, exceeding the claimed
5000-record cap. -/
theorem fetchAllEvents_cap_exceeded :
    5000 <
      (fetchAllEvents
        (List.replicate 51 (some (List.replicate 100 (0 : Nat))))).length := by
  decide

theorem fetchAllEventsLoop_length_le {α : Type} :
    ∀ (pages : List (Option (List α))) (acc : List α),
      (∀ l, some l ∈ pages → l.length ≤ 100) → acc.length ≤ 5000 →
      (fetchAllEventsLoop pages acc).length ≤ 5100
  | [], acc, _, hacc => le_trans hacc (by omega)
  | page :: rest, acc, hp, hacc => by
    cases page with
    | none => exact le_trans hacc (by omega)
    | some events =>
      have hev : events.length ≤ 100 := hp events (List.mem_cons_self _ _)
      show (if events.length = 0 then acc
        else if (acc ++ events).length > 5000 then acc ++ events
        else fetchAllEventsLoop rest (acc ++ events)).length ≤ 5100
      by_cases h0 : events.length = 0
      · rw [if_pos h0]; omega
      · rw [if_neg h0]
        by_cases h5 : (acc ++ events).length > 5000
        · rw [if_pos h5, List.length_append]; omega
        · rw [if_neg h5]
          exact fetchAllEventsLoop_length_le rest (acc ++ events)
            (fun l hl => hp l (List.mem_cons_of_mem _ hl))
            (by rw [List.length_append] at h5 ⊢; omega)

/-- Amended C5: when every page response holds at most 100 records (the
limit the loop requests), the returned list holds at most 5100 records:
the loop stops as soon as the accumulated count first exceeds 5000, which
can be up to one page past the 5000 mark. -/
theorem fetchAllEvents_length_le {α : Type} (pages : List (Option (List α)))
    (hp : ∀ l, some l ∈ pages → l.length ≤ 100) :
    (fetchAllEvents pages).length ≤ 5100 :=
  fetchAllEventsLoop_length_le pages [] hp (by simp)

/-- Witness for the amended C5 bound on a concrete page sequence. -/
theorem fetchAllEvents_length_le_witness :
    (fetchAllEvents [some [0, 1, 2], none]).length ≤ 5100 :=
  fetchAllEvents_length_le [some [(0 : Nat), 1, 2], none] (by
    intro l hl
    simp only [List.mem_cons, List.not_mem_nil, or_false,
      Option.some.injEq, reduceCtorEq] at hl
    rw [hl]
    decide)

theorem pollTraderStep_fail (cids : Option (List String))
    (fetch : String → FetchResult) (acc : StateStore × List Embed)
    (t : Trader) (hfail : (fetch t.wallet).isOk = false) :
    pollTraderStep cids fetch acc t = acc := by
  cases h : fetch t.wallet with
  | err => simp only [pollTraderStep, h]
  | nonList => simp only [pollTraderStep, h]
  | ok ps =>
    rw [h] at hfail
    exact absurd hfail (by rw [FetchResult.isOk]; simp)

theorem pollTraderStep_lookup_ne (cids : Option (List String))
    (fetch : String → FetchResult) (acc : StateStore × List Embed)
    (t : Trader) (w : String) (hw : t.wallet ≠ w) :
    jsLookup (pollTraderStep cids fetch acc t).1 w = jsLookup acc.1 w := by
  cases h : fetch t.wallet with
  | err => simp only [pollTraderStep, h]
  | nonList => simp only [pollTraderStep, h]
  | ok ps =>
    simp only [pollTraderStep, h]
    exact jsLookup_jsSet_ne acc.1 t.wallet w _ (Ne.symm hw)

theorem foldl_step_lookup_fresh
    (step : StateStore × List Embed → Trader → StateStore × List Embed)
    (hstep : ∀ acc t w, t.wallet ≠ w →
      jsLookup (step acc t).1 w = jsLookup acc.1 w) :
    ∀ (traders : List Trader) (acc : StateStore × List Embed) (w : String),
      (∀ t ∈ traders, t.wallet ≠ w) →
      jsLookup (List.foldl step acc traders).1 w = jsLookup acc.1 w
  | [], _, _, _ => rfl
  | t :: ts, acc, w, h => by
    rw [List.foldl_cons,
      foldl_step_lookup_fresh step hstep ts (step acc t) w
        (fun t' ht' => h t' (List.mem_cons_of_mem t ht')),
      hstep acc t w (h t (List.mem_cons_self t ts))]

/-- Claim C6: a failing per-trader fetch (thrown or non-list) during a
steady-state cycle contributes nothing: the cycle computes exactly what it
would have computed without that trader, and when no other configured
trader uses the same wallet, that trader's state entry is unchanged. -/
theorem pollOnce_fetch_failure_isolated (cids : Option (List String))
    (fetch : String → FetchResult) (st : StateStore)
    (pre post : List Trader) (t : Trader)
    (hfail : (fetch t.wallet).isOk = false)
    (hfresh : ∀ t' ∈ pre ++ post, t'.wallet ≠ t.wallet) :
    pollOnce cids fetch (pre ++ t :: post) st =
      pollOnce cids fetch (pre ++ post) st
    ∧ jsLookup (pollOnce cids fetch (pre ++ t :: post) st).1 t.wallet =
        jsLookup st t.wallet := by
  have heq : pollOnce cids fetch (pre ++ t :: post) st =
      pollOnce cids fetch (pre ++ post) st := by
    rw [pollOnce, pollOnce, List.foldl_append, List.foldl_append,
      List.foldl_cons, pollTraderStep_fail cids fetch _ t hfail]
  refine ⟨heq, ?_⟩
  rw [heq, pollOnce, foldl_step_lookup_fresh (pollTraderStep cids fetch)
    (fun acc t' w hw => pollTraderStep_lookup_ne cids fetch acc t' w hw)
    (pre ++ post) (st, []) t.wallet hfresh]

/-- Witness for C6 with a concrete failing fetch. -/
theorem pollOnce_fetch_failure_isolated_witness :
    pollOnce none fetchFailEx ([] ++ traderEx :: []) [] =
      pollOnce none fetchFailEx ([] ++ []) []
    ∧ jsLookup (pollOnce none fetchFailEx ([] ++ traderEx :: []) []).1
        traderEx.wallet = jsLookup [] traderEx.wallet :=
  pollOnce_fetch_failure_isolated none fetchFailEx [] [] [] traderEx
    (by decide) (by simp)

theorem baselineStep_fail (cids : List String)
    (fetch : String → FetchResult) (acc : StateStore × List Embed)
    (t : Trader) (hfail : (fetch t.wallet).isOk = false) :
    baselineStep cids fetch acc t = acc := by
  cases h : fetch t.wallet with
  | err => simp only [baselineStep, h]
  | nonList => simp only [baselineStep, h]
  | ok ps =>
    rw [h] at hfail
    exact absurd hfail (by rw [FetchResult.isOk]; simp)

theorem baselineStep_lookup_ne (cids : List String)
    (fetch : String → FetchResult) (acc : StateStore × List Embed)
    (t : Trader) (w : String) (hw : t.wallet ≠ w) :
    jsLookup (baselineStep cids fetch acc t).1 w = jsLookup acc.1 w := by
  cases h : fetch t.wallet with
  | err => simp only [baselineStep, h]
  | nonList => simp only [baselineStep, h]
  | ok ps =>
    simp only [baselineStep, h]
    exact jsLookup_jsSet_ne acc.1 t.wallet w _ (Ne.symm hw)

theorem baselineRun_snd_aux (cids : List String)
    (fetch : String → FetchResult) :
    ∀ (traders : List Trader) (acc : StateStore × List Embed),
      (List.foldl (baselineStep cids fetch) acc traders).2 = acc.2
  | [], _ => rfl
  | t :: ts, acc => by
    rw [List.foldl_cons, baselineRun_snd_aux cids fetch ts _]
    cases h : fetch t.wallet with
    | err => simp only [baselineStep, h]
    | nonList => simp only [baselineStep, h]
    | ok ps => simp only [baselineStep, h]

/-- Claim C7: the baseline phase dispatches no notification whatever the
fetched content, and its only effect on the state store is to set each
successfully fetched trader's entry to its filtered normalized snapshot:
a configured trader whose fetch failed (thrown or non-list) keeps its
previous entry when no other configured trader shares its wallet, and
wallets of no configured trader keep their previous entry. -/
theorem baseline_silent_populates (cids : List String)
    (fetch : String → FetchResult) (traders : List Trader) (st : StateStore) :
    (baselineRun cids fetch traders st).2 = []
    ∧ (∀ pre t post positions, traders = pre ++ t :: post →
        fetch t.wallet = FetchResult.ok positions →
        (∀ t' ∈ post, t'.wallet ≠ t.wallet) →
        jsLookup (baselineRun cids fetch traders st).1 t.wallet =
          some ((positions.filter fun p => cids.contains p.conditionId).map
            baselineNormalizePosition))
    ∧ (∀ pre t post, traders = pre ++ t :: post →
        (fetch t.wallet).isOk = false →
        (∀ t' ∈ pre ++ post, t'.wallet ≠ t.wallet) →
        jsLookup (baselineRun cids fetch traders st).1 t.wallet =
          jsLookup st t.wallet)
    ∧ (∀ w, (∀ t ∈ traders, t.wallet ≠ w) →
        jsLookup (baselineRun cids fetch traders st).1 w = jsLookup st w) := by
  refine ⟨baselineRun_snd_aux cids fetch traders (st, []), ?_, ?_, ?_⟩
  · intro pre t post positions htr hfetch hfresh
    subst htr
    rw [baselineRun, List.foldl_append, List.foldl_cons,
      foldl_step_lookup_fresh (baselineStep cids fetch)
        (fun acc t' w hw => baselineStep_lookup_ne cids fetch acc t' w hw)
        post _ t.wallet hfresh]
    simp only [baselineStep, hfetch]
    exact jsLookup_jsSet_self _ t.wallet _
  · intro pre t post htr hfail hfresh
    subst htr
    rw [baselineRun, List.foldl_append, List.foldl_cons,
      baselineStep_fail cids fetch _ t hfail,
      foldl_step_lookup_fresh (baselineStep cids fetch)
        (fun acc t' w hw => baselineStep_lookup_ne cids fetch acc t' w hw)
        post _ t.wallet
        (fun t' ht' => hfresh t' (List.mem_append.mpr (Or.inr ht'))),
      foldl_step_lookup_fresh (baselineStep cids fetch)
        (fun acc t' w hw => baselineStep_lookup_ne cids fetch acc t' w hw)
        pre (st, []) t.wallet
        (fun t' ht' => hfresh t' (List.mem_append.mpr (Or.inl ht')))]
  · intro w hw
    rw [baselineRun, foldl_step_lookup_fresh (baselineStep cids fetch)
      (fun acc t' w' hw' => baselineStep_lookup_ne cids fetch acc t' w' hw')
      traders (st, []) w hw]

/-- Witness for C7 on a concrete two-trader baseline where the first
trader's fetch fails (its pre-existing entry survives) and the second
succeeds (its entry is populated). -/
theorem baseline_silent_populates_witness :
    (baselineRun ["c3"] fetchFailEx [traderEx, traderEx2]
      [("w1", [pos50])]).2 = []
    ∧ jsLookup (baselineRun ["c3"] fetchFailEx [traderEx, traderEx2]
        [("w1", [pos50])]).1 traderEx2.wallet =
        some (([posC].filter fun p => ["c3"].contains p.conditionId).map
          baselineNormalizePosition)
    ∧ jsLookup (baselineRun ["c3"] fetchFailEx [traderEx, traderEx2]
        [("w1", [pos50])]).1 traderEx.wallet =
        jsLookup [("w1", [pos50])] traderEx.wallet :=
  ⟨(baseline_silent_populates ["c3"] fetchFailEx [traderEx, traderEx2]
      [("w1", [pos50])]).1,
    (baseline_silent_populates ["c3"] fetchFailEx [traderEx, traderEx2]
      [("w1", [pos50])]).2.1 [traderEx] traderEx2 [] [posC] rfl
      (by decide) (by simp),
    (baseline_silent_populates ["c3"] fetchFailEx [traderEx, traderEx2]
      [("w1", [pos50])]).2.2.1 [] traderEx [traderEx2] rfl
      (by decide) (by decide)⟩

/-- Counterexample to C9: a nonempty well-formed change list with
non-negative sizes containing an opened change and a zero-delta adjusted
change gets the green net-buy color even though not every change is opened
or positive-delta. -/
theorem buildTradeEmbed_color_cex :
    ([cNew5, cChg0] : List Change) ≠ []
    ∧ (∀ c ∈ [cNew5, cChg0], wellFormedChange c)
    ∧ (buildTradeEmbed "T" "0xW" [cNew5, cChg0]).color = 0x00ff00
    ∧ ¬ (∀ c ∈ [cNew5, cChg0],
          c.type = ChangeType.new ∨ 0 < c.sizeDelta) := by
  refine ⟨by decide, ?_, by decide, by decide⟩
  intro c hc
  rcases List.mem_cons.mp hc with rfl | hc
  · unfold wellFormedChange
    refine ⟨by norm_num [cNew5], by norm_num [cNew5], by norm_num [cNew5],
      fun _ => rfl, fun h => ?_⟩
    simp [cNew5] at h
  rcases List.mem_cons.mp hc with rfl | hc
  · unfold wellFormedChange
    refine ⟨by norm_num [cChg0], by norm_num [cChg0], by norm_num [cChg0],
      fun h => ?_, fun h => ?_⟩ <;> simp [cChg0] at h
  exact absurd hc (List.not_mem_nil _)

/-- Amended C9: for a nonempty list of well-formed changes with
non-negative sizes in which every adjusted change has a nonzero sizeDelta
(as every reconcile output does), the embed color is green exactly when
every change is opened or positive-delta, red exactly when every change is
closed or negative-delta, and amber exactly otherwise. -/
theorem buildTradeEmbed_color_classification (name wallet : String)
    (changes : List Change) (hne : changes ≠ [])
    (hwf : ∀ c ∈ changes, wellFormedChange c)
    (hadj : ∀ c ∈ changes, c.type = ChangeType.changed → c.sizeDelta ≠ 0) :
    ((buildTradeEmbed name wallet changes).color = 0x00ff00 ↔
      ∀ c ∈ changes, c.type = ChangeType.new ∨ 0 < c.sizeDelta)
    ∧ ((buildTradeEmbed name wallet changes).color = 0xff0000 ↔
      ∀ c ∈ changes, c.type = ChangeType.closed ∨ c.sizeDelta < 0)
    ∧ ((buildTradeEmbed name wallet changes).color = 0xffaa00 ↔
      ¬ (∀ c ∈ changes, c.type = ChangeType.new ∨ 0 < c.sizeDelta)
      ∧ ¬ (∀ c ∈ changes, c.type = ChangeType.closed ∨ c.sizeDelta < 0)) := by
  have hdeltaNew : ∀ c ∈ changes, c.type = ChangeType.new → 0 ≤ c.sizeDelta := by
    intro c hc htype
    obtain ⟨hsz, -, hsd, hnone, -⟩ := hwf c hc
    rw [hsd, hnone htype]
    simpa using hsz
  have hdeltaClosed : ∀ c ∈ changes, c.type = ChangeType.closed →
      c.sizeDelta ≤ 0 := by
    intro c hc htype
    obtain ⟨-, hps, hsd, -, hzero⟩ := hwf c hc
    rw [hsd, hzero htype]
    simpa using hps
  have hBuyIff : hasBuy changes = true ↔
      ∃ c ∈ changes, 0 < c.sizeDelta ∨ c.type = ChangeType.new := by
    simp [hasBuy, List.any_eq_true]
  have hSellIff : hasSell changes = true ↔
      ∃ c ∈ changes, c.sizeDelta < 0 ∨ c.type = ChangeType.closed := by
    simp [hasSell, List.any_eq_true]
  obtain ⟨c0, hc0⟩ : ∃ c, c ∈ changes := by
    cases changes with
    | nil => exact absurd rfl hne
    | cons a l => exact ⟨a, List.mem_cons_self a l⟩
  have hAllBuy : (∀ c ∈ changes, c.type = ChangeType.new ∨ 0 < c.sizeDelta) →
      hasBuy changes = true ∧ hasSell changes = false := by
    intro hall
    constructor
    · rw [hBuyIff]
      rcases hall c0 hc0 with h | h
      · exact ⟨c0, hc0, Or.inr h⟩
      · exact ⟨c0, hc0, Or.inl h⟩
    · rw [Bool.eq_false_iff]
      intro hS
      obtain ⟨c, hc, hcs⟩ := hSellIff.mp hS
      rcases hcs with hneg | hclosed
      · rcases hall c hc with htype | hpos
        · exact absurd hneg (not_lt.mpr (hdeltaNew c hc htype))
        · exact absurd hneg (not_lt.mpr (le_of_lt hpos))
      · rcases hall c hc with htype | hpos
        · rw [htype] at hclosed
          exact ChangeType.noConfusion hclosed
        · exact absurd hpos (not_lt.mpr (hdeltaClosed c hc hclosed))
  have hAllSell : (∀ c ∈ changes, c.type = ChangeType.closed ∨ c.sizeDelta < 0) →
      hasSell changes = true ∧ hasBuy changes = false := by
    intro hall
    constructor
    · rw [hSellIff]
      rcases hall c0 hc0 with h | h
      · exact ⟨c0, hc0, Or.inr h⟩
      · exact ⟨c0, hc0, Or.inl h⟩
    · rw [Bool.eq_false_iff]
      intro hB
      obtain ⟨c, hc, hcs⟩ := hBuyIff.mp hB
      rcases hcs with hpos | hnew
      · rcases hall c hc with htype | hneg
        · exact absurd hpos (not_lt.mpr (hdeltaClosed c hc htype))
        · exact absurd hpos (not_lt.mpr (le_of_lt hneg))
      · rcases hall c hc with htype | hneg
        · rw [hnew] at htype
          exact ChangeType.noConfusion htype
        · exact absurd hneg (not_lt.mpr (hdeltaNew c hc hnew))
  have hBackBuy : hasBuy changes = true → hasSell changes = false →
      ∀ c ∈ changes, c.type = ChangeType.new ∨ 0 < c.sizeDelta := by
    intro hB hS c hc
    have hnot : ¬ (c.sizeDelta < 0 ∨ c.type = ChangeType.closed) := by
      intro hcon
      rw [hSellIff.mpr ⟨c, hc, hcon⟩] at hS
      exact Bool.noConfusion hS
    push_neg at hnot
    cases htype : c.type with
    | new => exact Or.inl rfl
    | closed => exact absurd htype hnot.2
    | changed =>
      exact Or.inr (lt_of_le_of_ne hnot.1 (Ne.symm (hadj c hc htype)))
  have hBackSell : hasSell changes = true → hasBuy changes = false →
      ∀ c ∈ changes, c.type = ChangeType.closed ∨ c.sizeDelta < 0 := by
    intro hS hB c hc
    have hnot : ¬ (0 < c.sizeDelta ∨ c.type = ChangeType.new) := by
      intro hcon
      rw [hBuyIff.mpr ⟨c, hc, hcon⟩] at hB
      exact Bool.noConfusion hB
    push_neg at hnot
    cases htype : c.type with
    | new => exact absurd htype hnot.2
    | closed => exact Or.inl rfl
    | changed =>
      exact Or.inr (lt_of_le_of_ne hnot.1 (hadj c hc htype))
  have hcolor : (buildTradeEmbed name wallet changes).color =
      (if hasBuy changes && !hasSell changes then 0x00ff00
       else if hasSell changes && !hasBuy changes then 0xff0000
       else 0xffaa00) := rfl
  cases hB : hasBuy changes <;> cases hS : hasSell changes <;>
    rw [hB, hS] at hcolor <;> simp only [Bool.and_true, Bool.and_false,
      Bool.not_true, Bool.not_false, Bool.true_and, Bool.false_and,
      if_true, if_false] at hcolor
  · -- hasBuy = false, hasSell = false: amber
    refine ⟨?_, ?_, ?_⟩
    · rw [hcolor]
      refine iff_of_false (by decide) (fun hall => ?_)
      rw [(hAllBuy hall).1] at hB
      exact Bool.noConfusion hB
    · rw [hcolor]
      refine iff_of_false (by decide) (fun hall => ?_)
      rw [(hAllSell hall).1] at hS
      exact Bool.noConfusion hS
    · rw [hcolor]
      refine iff_of_true rfl ⟨fun hall => ?_, fun hall => ?_⟩
      · rw [(hAllBuy hall).1] at hB
        exact Bool.noConfusion hB
      · rw [(hAllSell hall).1] at hS
        exact Bool.noConfusion hS
  · -- hasBuy = false, hasSell = true: red
    refine ⟨?_, ?_, ?_⟩
    · rw [hcolor]
      refine iff_of_false (by decide) (fun hall => ?_)
      rw [(hAllBuy hall).2] at hS
      exact Bool.noConfusion hS
    · rw [hcolor]
      exact iff_of_true rfl (hBackSell hS hB)
    · rw [hcolor]
      refine iff_of_false (by decide) (fun hall => ?_)
      exact hall.2 (hBackSell hS hB)
  · -- hasBuy = true, hasSell = false: green
    refine ⟨?_, ?_, ?_⟩
    · rw [hcolor]
      exact iff_of_true rfl (hBackBuy hB hS)
    · rw [hcolor]
      refine iff_of_false (by decide) (fun hall => ?_)
      rw [(hAllSell hall).1] at hS
      exact Bool.noConfusion hS
    · rw [hcolor]
      refine iff_of_false (by decide) (fun hall => ?_)
      exact hall.1 (hBackBuy hB hS)
  · -- hasBuy = true, hasSell = true: amber
    refine ⟨?_, ?_, ?_⟩
    · rw [hcolor]
      refine iff_of_false (by decide) (fun hall => ?_)
      rw [(hAllBuy hall).2] at hS
      exact Bool.noConfusion hS
    · rw [hcolor]
      refine iff_of_false (by decide) (fun hall => ?_)
      rw [(hAllSell hall).2] at hB
      exact Bool.noConfusion hB
    · rw [hcolor]
      refine iff_of_true rfl ⟨fun hall => ?_, fun hall => ?_⟩
      · rw [(hAllBuy hall).2] at hS
        exact Bool.noConfusion hS
      · rw [(hAllSell hall).2] at hB
        exact Bool.noConfusion hB

/-- Witness for the amended C9 on a concrete single-change list. -/
theorem buildTradeEmbed_color_classification_witness :
    (buildTradeEmbed "T" "0xW" [cNew5]).color = 0x00ff00 :=
  ((buildTradeEmbed_color_classification "T" "0xW" [cNew5]
    (by decide)
    (by
      intro c hc
      rcases List.mem_cons.mp hc with rfl | hc
      · unfold wellFormedChange
        refine ⟨by norm_num [cNew5], by norm_num [cNew5], by norm_num [cNew5],
          fun _ => rfl, fun h => ?_⟩
        simp [cNew5] at h
      · exact absurd hc (List.not_mem_nil _))
    (by
      intro c hc htype
      rcases List.mem_cons.mp hc with rfl | hc
      · simp [cNew5] at htype
      · exact absurd hc (List.not_mem_nil _))).1).mpr
    (by
      intro c hc
      rcases List.mem_cons.mp hc with rfl | hc
      · exact Or.inl rfl
      · exact absurd hc (List.not_mem_nil _))

end PolyTracker
